import Mathlib

/-!
Verification development for the PDF outline-extraction and persona-relevance
pipeline (`ext2.py`, `ext3.py`, `src/persona_analyst.py`).

The Python sources are shallowly embedded: strings are Lean `String`s,
font sizes and coordinates are carried as exact integer hundredths of a
point (the source only compares them after rounding), relevance scores
live over `ℝ`, per-line records become structures, and the regular
expressions used by the heading classifier are unfolded into executable
character-list parsers equivalent to the greedy matches of the original
patterns.
-/

namespace PipelineModel

/-- Python's regex class for whitespace over the ASCII range, as used by
the patterns in `ext2.py`. -/
def pyWs (c : Char) : Bool :=
  c = ' ' || c = '\t' || c = '\n' || c = '\x0d' || c = '\x0b' || c = '\x0c'

/-- Collapse every run of immediately repeated identical characters to a
single occurrence; the character-level part of `clean_text`
(`itertools.groupby` loop, ext2.py line 15). -/
def collapseRuns : List Char → List Char
  | [] => []
  | [c] => [c]
  | a :: b :: rest =>
    if a = b then collapseRuns (b :: rest) else a :: collapseRuns (b :: rest)

/-- The maximal non-whitespace runs of a string; `str.split()` in Python. -/
def pySplit (s : String) : List String :=
  ((s.toList.splitOnP pyWs).filter (· ≠ [])).map List.asString

/-- `len(text.split())`, the word count used by the ext2 pipeline. -/
def wordCount (s : String) : ℕ := (pySplit s).length

/-- `clean_text` from ext2.py (identical in ext3.py): collapse repeated
characters, then normalise all whitespace runs to single spaces and trim.
The whitespace step is realised as joining the split words with single
spaces, which agrees with `re.sub` plus `strip`. -/
def clean_text (s : String) : String :=
  String.intercalate " " (pySplit (collapseRuns s.toList).asString)

/-- Python `str.isupper` restricted to the ASCII model: at least one cased
character and no lowercase cased character. -/
def pyIsUpper (s : String) : Bool :=
  s.toList.any Char.isAlpha && s.toList.all (fun c => !c.isLower)

/-- `re.fullmatch` of a bare digit string. -/
def allDigits (s : String) : Bool :=
  !s.toList.isEmpty && s.toList.all Char.isDigit

/-- `line_text.endswith(",")`. -/
def endsComma (s : String) : Bool := s.toList.getLast? = some ','

/-- `re.search` of a trailing dot leader followed by a page number, with at
least `k` literal dots: the pattern family of ext2 Rule 2 (`k = 4`) and
ext3 Rule 3 (`k = 3`).  Matching from the right end is equivalent to the
greedy regex match. -/
def tocDots (k : ℕ) (s : String) : Bool :=
  let r := s.toList.reverse
  decide (1 ≤ (r.takeWhile Char.isDigit).length) &&
  decide (k ≤ (((r.dropWhile Char.isDigit).dropWhile pyWs).takeWhile (· = '.')).length)

/-- `re.match` of a leading numbered-item marker: digits, a dot, then one
whitespace character (ext2 Rules 5 and 8). -/
def numDotWs (s : String) : Bool :=
  let l := s.toList
  let d := l.takeWhile Char.isDigit
  match l.drop d.length with
  | '.' :: c :: _ => !d.isEmpty && pyWs c
  | _ => false

/-- ext2 Rule 4: the rigid digit-dot-digit plus all-caps-words shape of
revision-history table rows (anchored on both ends). -/
def revHistRow (s : String) : Bool :=
  match s.toList with
  | a :: '.' :: b :: rest =>
    a.isDigit && b.isDigit &&
    (match rest with
     | c :: _ =>
       pyWs c && decide (2 ≤ rest.length) &&
       rest.all (fun d => ('A' ≤ d && d ≤ 'Z') || d.isDigit || pyWs d)
     | [] => false)
  | _ => false

/-- ASCII-model lowercase of one character (Python `str.lower`). -/
def asciiLower (c : Char) : Char :=
  if 'A' ≤ c ∧ c ≤ 'Z' then Char.ofNat (c.toNat + 32) else c

/-- ext2 Rule 7: case-insensitive full match of a page footer
(page word, optional count-of suffix). -/
def pageFooter (s : String) : Bool :=
  match s.toList.map asciiLower with
  | 'p' :: 'a' :: 'g' :: 'e' :: rest =>
    let r1 := rest.dropWhile pyWs
    let d1 := r1.takeWhile Char.isDigit
    if d1.isEmpty then false
    else
      match r1.drop d1.length with
      | [] => true
      | r2 =>
        let r3 := r2.dropWhile pyWs
        match r3 with
        | 'o' :: 'f' :: r4 =>
          let r5 := r4.dropWhile pyWs
          let d2 := r5.takeWhile Char.isDigit
          !d2.isEmpty && (r5.drop d2.length).isEmpty
        | _ => false
  | _ => false

/-- Consume one maximal nonempty digit run, returning the remainder. -/
def parseDigits (l : List Char) : Option (List Char) :=
  let d := l.takeWhile Char.isDigit
  if d.isEmpty then none else some (l.drop d.length)

/-- Consume `k` digit runs separated by single dots, returning the
remainder. -/
def parseDotted : ℕ → List Char → Option (List Char)
  | 0, l => some l
  | 1, l => parseDigits l
  | k + 2, l =>
    match parseDigits l with
    | some ('.' :: r) => parseDotted (k + 1) r
    | _ => none

/-- The numbering pattern for levels H2 to H4 in ext2: `k` dotted digit
groups followed by at least one whitespace character. -/
def hpat (k : ℕ) (s : String) : Bool :=
  match parseDotted k s.toList with
  | some (c :: _) => pyWs c
  | _ => false

/-- The H1 numbering pattern of ext2: an appendix marker or a digit run,
then a dot and at least one whitespace character. -/
def hpatH1 (s : String) : Bool :=
  let l := s.toList
  let afterGroup : Option (List Char) :=
    match l with
    | 'A' :: 'p' :: 'p' :: 'e' :: 'n' :: 'd' :: 'i' :: 'x' :: w :: u :: r =>
      if pyWs w && ('A' ≤ u && u ≤ 'Z') then some r else parseDigits l
    | _ => parseDigits l
  match afterGroup with
  | some ('.' :: c :: _) => pyWs c
  | _ => false

/-!
Font sizes and vertical coordinates are reported by the PDF collaborator as
floats, but ext2.py compares them only after `round(size, 2)` and ext3.py
only after `round(size)`.  The embedding therefore carries sizes and
coordinates as exact integer multiples of one hundredth of a point
(`ℤ`, unit 0.01), on which every comparison of the source is exact:
`abs(a - b) < 0.1` becomes `|a - b| < 10`, and
`size >= threshold * 0.9` becomes `9 * threshold ≤ 10 * size`
(denominators cleared; see `nineTenths_le_iff`).
-/

/-- The document-wide font thresholds of ext2 (`font_stats` dict),
in hundredths of a point. -/
structure FontStats where
  h1_font_threshold : ℤ
  h2_font_threshold : ℤ
  h3_font_threshold : ℤ
  h4_font_threshold : ℤ
deriving DecidableEq

/-- Clearing the denominator of the 0.9 multiplier of the ext2 style
fallback is exact over the rationals. -/
theorem nineTenths_le_iff (t f : ℤ) :
    ((t : ℚ) * (9 / 10) ≤ (f : ℚ)) ↔ (9 * t ≤ 10 * f) := by
  rw [mul_comm (9 : ℤ) t, mul_comm (10 : ℤ) f]
  constructor
  · intro h
    have := mul_le_mul_of_nonneg_right h (by norm_num : (0 : ℚ) ≤ 10)
    have h2 : (t : ℚ) * 9 ≤ (f : ℚ) * 10 := by
      calc (t : ℚ) * 9 = (t : ℚ) * (9 / 10) * 10 := by ring
        _ ≤ (f : ℚ) * 10 := this
    exact_mod_cast h2
  · intro h
    have h2 : (t : ℚ) * 9 ≤ (f : ℚ) * 10 := by exact_mod_cast h
    calc (t : ℚ) * (9 / 10) = (t : ℚ) * 9 / 10 := by ring
      _ ≤ (f : ℚ) * 10 / 10 := by
        exact div_le_div_of_nonneg_right h2 (by norm_num) |>.trans_eq (by ring)
      _ = (f : ℚ) := by ring

/-- `is_likely_heading` from ext2.py: the eight rejection rules, evaluated
in source order on the already-cleaned line text. -/
def is_likely_heading (line_text : String) (font_size : ℤ) (is_bold : Bool)
    (font_stats : FontStats) (line_word_count : ℕ) : Bool :=
  if line_text = "" ∨ line_text.length < 3 then false
  else if tocDots 4 line_text then false
  else if 12 < line_word_count ∨ endsComma line_text then false
  else if revHistRow line_text then false
  else if numDotWs line_text ∧ 8 < line_word_count then false
  else if pyIsUpper line_text ∧ 1 < line_word_count ∧
          font_size < font_stats.h2_font_threshold then false
  else if pageFooter line_text ∨ allDigits line_text then false
  else if numDotWs line_text ∧ is_bold = false ∧
          font_size < font_stats.h2_font_threshold then false
  else true

/-- The primary classification method of ext2 (lines 137-140): numbering
patterns tried from most specific (H4) to least specific (H1). -/
def patternLevel (s : String) : Option String :=
  if hpat 4 s then some "H4"
  else if hpat 3 s then some "H3"
  else if hpat 2 s then some "H2"
  else if hpatH1 s then some "H1"
  else none

/-- The fallback classification method of ext2 (lines 143-146): bold or
fully-uppercase lines classified by font size against the thresholds
scaled by 0.9 (comparisons written with denominators cleared, which is
exact by `nineTenths_le_iff`). -/
def styleFallback (font_size : ℤ) (is_bold : Bool) (st : FontStats)
    (upper : Bool) : Option String :=
  if is_bold ∨ upper then
    if 9 * st.h1_font_threshold ≤ 10 * font_size then some "H1"
    else if 9 * st.h2_font_threshold ≤ 10 * font_size then some "H2"
    else if 9 * st.h3_font_threshold ≤ 10 * font_size then some "H3"
    else none
  else none

/-- The complete per-line decision of ext2 on a cleaned line: rejection
rules first, then numbering patterns, then the style fallback. -/
def headingLevel (line_text : String) (font_size : ℤ) (is_bold : Bool)
    (st : FontStats) (wc : ℕ) : Option String :=
  if is_likely_heading line_text font_size is_bold st wc then
    match patternLevel line_text with
    | some l => some l
    | none => styleFallback font_size is_bold st (pyIsUpper line_text)
  else none

/-- The ext2 pipeline step for one raw extracted line (lines 121-146):
clean the text, recompute the word count, then classify. -/
def lineLevel (raw : String) (font_size : ℤ) (is_bold : Bool)
    (st : FontStats) : Option String :=
  let t := clean_text raw
  headingLevel t font_size is_bold st (wordCount t)

/-- Sample evaluations pinning the character-list parsers to the
behaviour of the original regular expressions and string methods. -/
theorem regex_model_samples :
    clean_text "RRRFFFFPPPP" = "RFP" ∧
    clean_text "1.2.3   Background " = "1.2.3 Background" ∧
    tocDots 4 "Introduction ....... 42" = true ∧
    tocDots 4 "Introduction . 42" = false ∧
    patternLevel "1.2.3 Background" = some "H3" ∧
    patternLevel "1.2 Overview" = some "H2" ∧
    patternLevel "Appendix B. Tables" = some "H1" ∧
    patternLevel "3. Intro" = some "H1" ∧
    patternLevel "1.2.3.4 Deep" = some "H4" ∧
    pageFooter "Page 3 of 10" = true ∧
    pageFooter "PAGE 7" = true ∧
    pageFooter "Page" = false ∧
    pyIsUpper "TOTAL BUDGET" = true ∧
    pyIsUpper ". 42" = false := by
  decide

/-- Python banker's rounding of a size or coordinate given in hundredths
to a whole unit (`round(x)` and the integer rounding of `round(y0)`). -/
def pyroundC (x : ℤ) : ℤ :=
  let q := Int.fdiv x 100
  let r := x - 100 * q
  if r < 50 then q else if 50 < r then q + 1 else if q % 2 = 0 then q else q + 1

/-- Python `str.strip()` over the ASCII whitespace model. -/
def pyStrip (s : String) : String :=
  (((s.toList.dropWhile pyWs).reverse.dropWhile pyWs).reverse).asString

/-- Python `str.lower()` over the ASCII model. -/
def lowerStr (s : String) : String := (s.toList.map asciiLower).asString

/-- Substring test (Python's `needle in hay`). -/
def listContains (hay needle : List Char) : Bool :=
  (List.range (hay.length + 1)).any (fun i => needle.isPrefixOf (hay.drop i))

/-- Substring test on strings. -/
def strContains (hay needle : String) : Bool :=
  listContains hay.toList needle.toList

/-- The boldness heuristic shared by ext2 and ext3: the lowercased font
name mentions bold, black or heavy. -/
def isBoldName (fontname : String) : Bool :=
  let f := fontname.toList.map asciiLower
  listContains f "bold".toList || listContains f "black".toList ||
    listContains f "heavy".toList

/-- Keep the first occurrence of each value, preserving order: the key
order of a Python dict built by repeated insertion. -/
def firstDedup {α : Type} [DecidableEq α] : List α → List α
  | [] => []
  | a :: l => a :: (firstDedup l).filter (· ≠ a)

/-- Insert an element into a sorted list after every element that compares
less-or-equal to it; the insertion step of a stable sort. -/
def stableInsert {α : Type} (le : α → α → Bool) (a : α) : List α → List α
  | [] => [a]
  | b :: l => if le b a then b :: stableInsert le a l else a :: b :: l

/-- Tail of the stable sort: fold the input in order into an accumulator
that stays sorted. -/
def pySortedGo {α : Type} (le : α → α → Bool) (acc : List α) : List α → List α
  | [] => acc
  | a :: l => pySortedGo le (stableInsert le a acc) l

/-- A stable sort, modelling Python's stable `sorted`/`list.sort`: given a
total transitive comparison it produces the unique stable sorted
rearrangement, which is exactly what Timsort returns. -/
def pySorted {α : Type} (le : α → α → Bool) (l : List α) : List α :=
  pySortedGo le [] l

/-- One outline entry (`{"level", "text", "page"}`). -/
structure Entry where
  level : String
  text : String
  page : ℕ
deriving DecidableEq

/-- The deduplication key of the post-processing phase:
`(entry['text'].lower(), entry['page'])`. -/
def entryKey (e : Entry) : String × ℕ := (lowerStr e.text, e.page)

/-- The seen-set loop of ext2 Phase 4 (identical in ext3's final
deduplication): keep an entry only if its key has not occurred before. -/
def dedupGo (seen : List (String × ℕ)) : List Entry → List Entry
  | [] => []
  | e :: es =>
    if entryKey e ∈ seen then dedupGo seen es
    else e :: dedupGo (entryKey e :: seen) es

/-- Outline deduplication by `(lowercased text, page)`, first occurrence
kept. -/
def dedupOutline (l : List Entry) : List Entry := dedupGo [] l

namespace Ext2

/-- One positioned character as exposed by the PDF collaborator
(text, font size in hundredths, font name). -/
structure Chr where
  text : String
  size : ℤ
  fontname : String
deriving DecidableEq

/-- One extracted word of the first page (text, font size and vertical
coordinate in hundredths).  Following the interface contract of the spec,
the vertical coordinate grows downward, so ascending order is
top-to-bottom. -/
structure Word where
  text : String
  size : ℤ
  y0 : ℤ
deriving DecidableEq

/-- One extracted text line together with its characters. -/
structure Line2 where
  text : String
  chars : List Chr
deriving DecidableEq

/-- One page: characters (Phase 1), words (Phase 2, first page only) and
lines (Phase 3). -/
structure Page where
  chars : List Chr
  words : List Word
  lines : List Line2
deriving DecidableEq

/-- Phase 1 of ext2: the distinct (rounded) character sizes sorted
descending, padded with 0 to the four thresholds. -/
def font_stats_of (pdf : List Page) : FontStats :=
  let sizes := firstDedup ((pdf.flatMap (·.chars)).map (·.size))
  let sorted := pySorted (fun a b : ℤ => decide (b ≤ a)) sizes
  ⟨sorted.getD 0 0, sorted.getD 1 0, sorted.getD 2 0, sorted.getD 3 0⟩

/-- Phase 2 of ext2 before the fallback: group the first-page words whose
size is within 0.1 of the maximum size by rounded row, keep the first
three rows in ascending row order, join with single spaces and clean. -/
def titleRaw (words : List Word) (max_font_size : ℤ) : String :=
  if 0 < max_font_size then
    let matching := words.filter (fun w => |w.size - max_font_size| < 10)
    let keys := firstDedup (matching.map (fun w => pyroundC w.y0))
    let sorted := pySorted (fun a b : ℤ => decide (a ≤ b)) keys
    let parts := (sorted.take 3).map (fun y =>
      String.intercalate " "
        ((matching.filter (fun w => pyroundC w.y0 = y)).map (·.text)))
    clean_text (String.intercalate " " parts)
  else ""

/-- Phase 2 of ext2 with the fallback of line 104: an empty or
shorter-than-5 title becomes the literal "Untitled Document". -/
def titleOf (words : List Word) (max_font_size : ℤ) : String :=
  let t := titleRaw words max_font_size
  if t = "" ∨ t.length < 5 then "Untitled Document" else t

/-- Phase 3 of ext2 for one line: clean the text, find the first
non-whitespace character for size and boldness, classify. -/
def lineEntry (st : FontStats) (page : ℕ) (ln : Line2) : Option Entry :=
  let t := clean_text ln.text
  match ln.chars.find? (fun c => pyStrip c.text ≠ "") with
  | none => none
  | some fc =>
    match headingLevel t fc.size (isBoldName fc.fontname) st (wordCount t) with
    | some lvl => some ⟨lvl, t, page⟩
    | none => none

/-- `extract_outline_with_pdfplumber` of ext2.py: empty documents short
circuit, otherwise font statistics, title, per-page classification and
final deduplication. -/
def extract_outline_with_pdfplumber (pdf : List Page) : String × List Entry :=
  match pdf with
  | [] => ("Empty Document", [])
  | first :: _ =>
    let st := font_stats_of pdf
    let title := titleOf first.words st.h1_font_threshold
    let outline := pdf.enum.flatMap
      (fun p => p.2.lines.filterMap (lineEntry st (p.1 + 1)))
    (title, dedupOutline outline)

end Ext2

section Ext2Examples

/-- A first page carrying a two-row title in the largest font. -/
def annualPage : Ext2.Page :=
  { chars := [⟨"A", 1400, "Helv"⟩, ⟨"b", 1000, "Helv"⟩]
    words := [⟨"Annual", 1400, 10000⟩, ⟨"Report", 1400, 12000⟩,
              ⟨"2024", 1400, 12000⟩, ⟨"body", 1000, 20000⟩]
    lines := [] }

end Ext2Examples

/-- ext3 Rule 4: `re.match` of digit, dot, digit, whitespace. -/
def dDotDWs (s : String) : Bool :=
  match s.toList with
  | a :: '.' :: b :: c :: _ => a.isDigit && b.isDigit && pyWs c
  | _ => false

/-- State machine for ext3 Rule 5's leading-number pattern (digit run,
optional dot-separated further digit runs, then a whitespace character);
state 0 expects the first digit, state 1 is inside a digit run, state 2
expects a digit after a dot.  The scan is equivalent to the greedy regex
match. -/
def ndState : ℕ → List Char → Bool
  | _, [] => false
  | 0, c :: r => c.isDigit && ndState 1 r
  | 1, c :: r =>
    if c.isDigit then ndState 1 r else if c = '.' then ndState 2 r else pyWs c
  | 2, c :: r => c.isDigit && ndState 1 r
  | _ + 3, _ => false

/-- ext3 Rule 5's pattern: a dotted number marker followed by whitespace. -/
def numDottedWs (s : String) : Bool := ndState 0 s.toList

namespace Ext3

/-- One extracted word as used by ext3: text, size, vertical and
horizontal coordinates (in hundredths), font name. -/
structure Word3 where
  text : String
  size : ℤ
  y0 : ℤ
  x0 : ℤ
  fontname : String
deriving DecidableEq

/-- One page of the ext3 model: only extracted words are consumed. -/
structure Page3 where
  words : List Word3
deriving DecidableEq

/-- `analyze_document_styles` from ext3.py: the most frequent rounded word
size is the body size (first maximum in insertion order, as Python's
`max` over a dict); heading sizes are the sizes larger than body + 1,
sorted descending. -/
def analyze_document_styles (pdf : List Page3) : ℤ × List ℤ :=
  let allSizes := (pdf.flatMap (·.words)).map (fun w => pyroundC w.size)
  match firstDedup allSizes with
  | [] => (0, [])
  | k :: ks =>
    let body := ks.foldl
      (fun best s => if allSizes.count best < allSizes.count s then s else best) k
    let heading := pySorted (fun a b : ℤ => decide (b ≤ a))
      ((k :: ks).filter (fun s => body + 1 < s))
    (body, heading)

/-- The size-to-level map of ext3 (`level_map.get(font_size, "H4")`). -/
def levelOf (heading_sizes : List ℤ) (font_size : ℤ) : String :=
  match heading_sizes.indexOf? font_size with
  | some i => "H" ++ toString (i + 1)
  | none => "H4"

/-- The per-line filtering logic of ext3 (Rules 1-6 in source order) and
the level assignment, over the words of one visual row sorted by
horizontal position. -/
def ext3LineEntry (heading_sizes : List ℤ) (page : ℕ)
    (line_words : List Word3) : Option Entry :=
  match line_words with
  | [] => none
  | fw :: _ =>
    let line_text := clean_text (String.intercalate " " (line_words.map (·.text)))
    let font_size := pyroundC fw.size
    let is_bold := isBoldName fw.fontname
    if font_size ∉ heading_sizes then none
    else if is_bold = false ∧ pyIsUpper line_text = false then none
    else if tocDots 3 line_text then none
    else if dDotDWs line_text then none
    else if numDottedWs line_text ∧ 8 < line_words.length then none
    else if 12 < line_words.length then none
    else some ⟨levelOf heading_sizes font_size, line_text, page⟩

/-- Phase 3 of ext3 for one page: group words into rows by rounded
vertical coordinate, visit rows in ascending order, sort each row by
horizontal position, and classify. -/
def ext3PageOutline (heading_sizes : List ℤ) (page : ℕ) (pg : Page3) :
    List Entry :=
  let keys := firstDedup (pg.words.map (fun w => pyroundC w.y0))
  let sorted := pySorted (fun a b : ℤ => decide (a ≤ b)) keys
  sorted.filterMap (fun y =>
    ext3LineEntry heading_sizes page
      (pySorted (fun a b : Word3 => decide (a.x0 ≤ b.x0))
        (pg.words.filter (fun w => pyroundC w.y0 = y))))

/-- Phase 2 of ext3 before the fallback: the cleaned join of all
first-page rows whose rounded word size equals the largest heading size
(empty when there is no heading size or no matching word). -/
def ext3TitleRaw (pdf : List Page3) : String :=
  match pdf with
  | [] => ""
  | first :: _ =>
    match (analyze_document_styles pdf).2 with
    | [] => ""
    | m :: _ =>
      let pot := first.words.filter (fun w => pyroundC w.size = m)
      let keys := firstDedup (pot.map (fun w => pyroundC w.y0))
      let sorted := pySorted (fun a b : ℤ => decide (a ≤ b)) keys
      let full := String.intercalate " " (sorted.map (fun y =>
        String.intercalate " "
          ((pot.filter (fun w => pyroundC w.y0 = y)).map (·.text))))
      clean_text full

/-- Phase 2 of ext3: the title falls back to "Untitled Document" only
when no nonempty cleaned candidate exists; unlike ext2 there is no
minimum-length check. -/
def ext3TitleOf (pdf : List Page3) : String :=
  if ext3TitleRaw pdf = "" then "Untitled Document" else ext3TitleRaw pdf

/-- `extract_outline_with_pdfplumber` of ext3.py: empty documents short
circuit, otherwise style analysis, title, per-page filtering and final
deduplication. -/
def extract_outline_with_pdfplumber (pdf : List Page3) : String × List Entry :=
  match pdf with
  | [] => ("Empty Document", [])
  | _ :: _ =>
    let heading_sizes := (analyze_document_styles pdf).2
    let title := ext3TitleOf pdf
    let outline := pdf.enum.flatMap
      (fun p => ext3PageOutline heading_sizes (p.1 + 1) p.2)
    (title, dedupOutline outline)

end Ext3

section Ext3Examples

/-- A page whose dominant body size is 10pt and whose only heading-sized
text is the three-letter word RFP at 20pt. -/
def rfpPage : Ext3.Page3 :=
  { words := [⟨"RFP", 2000, 1000, 0, "Helv"⟩,
              ⟨"alpha", 1000, 3000, 0, "Helv"⟩,
              ⟨"beta", 1000, 3000, 500, "Helv"⟩,
              ⟨"gamma", 1000, 4000, 0, "Helv"⟩] }

end Ext3Examples

namespace Analyst

/-!
Model of `src/persona_analyst.py`.  A document is the list of its pages,
each page the list of its extracted text lines (only the line text is
consumed here).  The spaCy and scikit-learn collaborators are modelled per
the interface contract of the spec: sentence segmentation and
lemmatisation are explicit function parameters, and the TF-IDF scoring is
embedded over the reals.  Note that the source file uses `re` and
`pdfplumber` without importing them; the embedding models the intended
semantics of those library calls, as used elsewhere in the repository.
-/

/-- One record of `all_extracted_sections` (the `importance_rank` field is
assigned during ranking and carried separately by the ranking model). -/
structure Sec where
  document : String
  page_number : ℕ
  section_title : String
  full_text_content : String
deriving DecidableEq

/-- The per-page scan of `get_text_content_for_section`: skip lines until
the section title occurs as a substring of a stripped line, then collect
every stripped line, stopping early when the stop title (present only on
the page of the next section) occurs.  The `found` flag resets on every
page, exactly as in the source. -/
def scanLines (section_title : String) (stop : Option String) :
    Bool → List String → List String
  | _, [] => []
  | found, l :: ls =>
    let cl := pyStrip l
    if found = false then
      if strContains cl section_title then
        cl :: scanLines section_title stop true ls
      else scanLines section_title stop false ls
    else
      match stop with
      | some nt =>
        if strContains cl nt then []
        else cl :: scanLines section_title stop true ls
      | none => cl :: scanLines section_title stop true ls

/-- The page loop of `get_text_content_for_section`, `idx` being the
0-based index of the current page.  The next-section stop is active only
on the page before the next section's page, and the loop breaks once that
page is reached; Python truthiness of the next page number and title is
modelled explicitly. -/
def getTextGo (section_title : String) (nxt : Option (ℕ × String)) :
    ℕ → List (List String) → List String
  | _, [] => []
  | idx, pg :: rest =>
    let stop : Option String :=
      match nxt with
      | some (np, nt) =>
        if np ≠ 0 ∧ nt ≠ "" ∧ idx = np - 1 then some nt else none
      | none => none
    let parts := scanLines section_title stop false pg
    let brk : Bool :=
      match nxt with
      | some (np, _) => decide (np ≠ 0 ∧ np - 1 ≤ idx)
      | none => false
    if brk then parts else parts ++ getTextGo section_title nxt (idx + 1) rest

/-- `get_text_content_for_section`: empty for an out-of-range page,
otherwise the scan from the section's (1-based) page onward, joined with
spaces and whitespace-normalised. -/
def get_text_content_for_section (pdf : List (List String)) (page_number : ℕ)
    (section_title : String) (nxt : Option (ℕ × String)) : String :=
  if pdf.length < page_number then ""
  else
    String.intercalate " "
      (pySplit (String.intercalate " "
        (getTextGo section_title nxt (page_number - 1) (pdf.drop (page_number - 1)))))

/-- The scikit-learn tokenizer: lowercase, then the maximal word-character
runs of length at least two. -/
def tokenize (s : String) : List String :=
  ((((s.toList.map asciiLower).splitOnP
      (fun c => !(c.isAlphanum || c = '_'))).filter
    (fun t => 2 ≤ t.length)).map List.asString)

/-- The fitted corpus: every section body plus the query text, in order. -/
def corpusOf (secs : List Sec) (query_text : String) : List String :=
  secs.map (·.full_text_content) ++ [query_text]

/-- Document frequency of a term over the corpus. -/
def docFreq (corpus : List String) (t : String) : ℕ :=
  corpus.countP (fun d => (tokenize d).contains t)

/-- The vocabulary over which vectors are built.  The vectorizer's
stop-word removal and 5000-feature cap select a subset of this list; every
theorem below is proved from vector-level lemmas that hold for an
arbitrary vocabulary, so the selection is immaterial to the claims. -/
def buildVocab (corpus : List String) : List String :=
  firstDedup (corpus.flatMap tokenize)

/-- The smoothed inverse document frequency of scikit-learn's
TfidfVectorizer. -/
noncomputable def smoothIdf (n df : ℕ) : ℝ :=
  Real.log ((1 + n) / (1 + df)) + 1

/-- The TF-IDF vector of one text over the vocabulary: raw term count
times smoothed idf per vocabulary entry. -/
noncomputable def tfidfVec (vocab corpus : List String) (text : String) :
    List ℝ :=
  vocab.map (fun t =>
    ((tokenize text).count t : ℝ) * smoothIdf corpus.length (docFreq corpus t))

/-- Dot product of two vectors given as lists. -/
def dotL (v w : List ℝ) : ℝ := (List.zipWith (· * ·) v w).sum

/-- Euclidean norm. -/
noncomputable def normL (v : List ℝ) : ℝ := Real.sqrt (dotL v v)

/-- Replace a zero norm by one, as scikit-learn's row normalisation does;
zero vectors thus keep similarity 0 instead of raising. -/
noncomputable def nzOr1 (x : ℝ) : ℝ := if x = 0 then 1 else x

/-- Cosine similarity as computed by `cosine_similarity` composed with the
vectorizer's own L2 normalisation: the dot product divided by the
zero-guarded norms. -/
noncomputable def cosineSim (v w : List ℝ) : ℝ :=
  dotL v w / (nzOr1 (normL v) * nzOr1 (normL w))

/-- The query string of `analyze_document_collection`. -/
def query_text_of (persona job : String) : String :=
  "Persona: " ++ persona ++ ". Job: " ++ job

/-- The similarity score a section receives against the query
(lines 141-155 of the source: fit TF-IDF on all section bodies plus the
query, then cosine similarity of the query vector with the section's
vector). -/
noncomputable def sectionScore (secs : List Sec) (query_text : String)
    (s : Sec) : ℝ :=
  let corpus := corpusOf secs query_text
  let vocab := buildVocab corpus
  cosineSim (tfidfVec vocab corpus query_text)
    (tfidfVec vocab corpus s.full_text_content)

/-- The comparison realising `sort(key=importance_rank, reverse=True)`:
an element may stay before another exactly when its score is at least as
large. -/
noncomputable def rankLE (x y : ℕ × Sec × ℝ) : Bool :=
  @decide (y.2.2 ≤ x.2.2) (Classical.propDecidable _)

/-- The ranked section list: every section tagged with its input position
(the Python list index) and its score, stably sorted by descending
score. -/
noncomputable def ranked_sections (secs : List Sec) (query_text : String) :
    List (ℕ × Sec × ℝ) :=
  pySorted rankLE
    (secs.enum.map (fun p => (p.1, p.2, sectionScore secs query_text p.2)))

theorem dotL_nil_left (w : List ℝ) : dotL [] w = 0 := rfl

theorem dotL_nil_right (v : List ℝ) : dotL v [] = 0 := by
  cases v <;> rfl

theorem dotL_cons (a b : ℝ) (v w : List ℝ) :
    dotL (a :: v) (b :: w) = a * b + dotL v w := by
  simp [dotL]

theorem dotL_nonneg {v w : List ℝ} (hv : ∀ x ∈ v, 0 ≤ x)
    (hw : ∀ x ∈ w, 0 ≤ x) : 0 ≤ dotL v w := by
  induction v generalizing w with
  | nil => simp [dotL_nil_left]
  | cons a v ih =>
    cases w with
    | nil => simp [dotL_nil_right]
    | cons b w =>
      rw [dotL_cons]
      have ha := hv a (List.mem_cons_self a v)
      have hb := hw b (List.mem_cons_self b w)
      have := ih (fun x hx => hv x (List.mem_cons_of_mem a hx))
        (fun x hx => hw x (List.mem_cons_of_mem b hx))
      nlinarith

theorem dotL_zero_right {w : List ℝ} (hw : ∀ x ∈ w, x = 0) (v : List ℝ) :
    dotL v w = 0 := by
  induction v generalizing w with
  | nil => simp [dotL_nil_left]
  | cons a v ih =>
    cases w with
    | nil => simp [dotL_nil_right]
    | cons b w =>
      rw [dotL_cons, hw b (List.mem_cons_self b w),
        ih (fun x hx => hw x (List.mem_cons_of_mem b hx))]
      ring

theorem dotL_self_nonneg (v : List ℝ) : 0 ≤ dotL v v := by
  induction v with
  | nil => simp [dotL_nil_left]
  | cons a v ih =>
    rw [dotL_cons]
    nlinarith

theorem dotL_eq_sum (v w : List ℝ) :
    dotL v w = ∑ i ∈ Finset.range (min v.length w.length),
      v.getD i 0 * w.getD i 0 := by
  induction v generalizing w with
  | nil => simp [dotL_nil_left]
  | cons a v ih =>
    cases w with
    | nil => simp [dotL_nil_right]
    | cons b w =>
      rw [dotL_cons, ih w]
      simp only [List.length_cons, Nat.succ_min_succ]
      rw [Finset.sum_range_succ']
      simp [add_comm]

theorem dotL_sq_le {v w : List ℝ} (h : v.length = w.length) :
    dotL v w ^ 2 ≤ dotL v v * dotL w w := by
  rw [dotL_eq_sum v w, dotL_eq_sum v v, dotL_eq_sum w w, h]
  simp only [min_self]
  have := Finset.sum_mul_sq_le_sq_mul_sq (Finset.range w.length)
    (fun i => v.getD i 0) (fun i => w.getD i 0)
  simpa [pow_two] using this

theorem normL_nonneg (v : List ℝ) : 0 ≤ normL v := Real.sqrt_nonneg _

theorem dotL_eq_zero_of_norm_zero {v : List ℝ} (h : normL v = 0)
    {w : List ℝ} (hl : v.length = w.length) : dotL v w = 0 := by
  have hvv : dotL v v = 0 := by
    have := (Real.sqrt_eq_zero (dotL_self_nonneg v)).mp h
    exact this
  have hsq : dotL v w ^ 2 ≤ 0 := by
    have := dotL_sq_le hl
    rw [hvv, zero_mul] at this
    exact this
  have : dotL v w ^ 2 = 0 := le_antisymm hsq (sq_nonneg _)
  exact (pow_eq_zero_iff two_ne_zero).mp this

theorem cosineSim_bounds {v w : List ℝ} (hv : ∀ x ∈ v, 0 ≤ x)
    (hw : ∀ x ∈ w, 0 ≤ x) (hl : v.length = w.length) :
    0 ≤ cosineSim v w ∧ cosineSim v w ≤ 1 := by
  by_cases h1 : normL v = 0
  · have : dotL v w = 0 := dotL_eq_zero_of_norm_zero h1 hl
    simp [cosineSim, this]
  by_cases h2 : normL w = 0
  · have hwv : dotL w v = 0 := dotL_eq_zero_of_norm_zero h2 hl.symm
    have : dotL v w = 0 := by
      rw [dotL_eq_sum] at hwv ⊢
      rw [min_comm] at hwv
      calc (∑ i ∈ Finset.range (min v.length w.length), v.getD i 0 * w.getD i 0)
          = ∑ i ∈ Finset.range (min v.length w.length), w.getD i 0 * v.getD i 0 := by
            apply Finset.sum_congr rfl
            intro i _
            ring
        _ = 0 := hwv
    simp [cosineSim, this]
  · have hv0 : 0 < normL v := lt_of_le_of_ne (normL_nonneg v) (Ne.symm h1)
    have hw0 : 0 < normL w := lt_of_le_of_ne (normL_nonneg w) (Ne.symm h2)
    have hD : 0 ≤ dotL v w := dotL_nonneg hv hw
    have hden : 0 < normL v * normL w := mul_pos hv0 hw0
    have hle : dotL v w ≤ normL v * normL w := by
      have h3 : dotL v w = Real.sqrt (dotL v w ^ 2) := (Real.sqrt_sq hD).symm
      rw [h3]
      calc Real.sqrt (dotL v w ^ 2) ≤ Real.sqrt (dotL v v * dotL w w) :=
            Real.sqrt_le_sqrt (dotL_sq_le hl)
        _ = normL v * normL w := Real.sqrt_mul (dotL_self_nonneg v) _
    rw [cosineSim]
    rw [nzOr1, if_neg h1, nzOr1, if_neg h2]
    exact ⟨div_nonneg hD hden.le, (div_le_one hden).mpr hle⟩

theorem smoothIdf_nonneg {n df : ℕ} (h : df ≤ n) : 0 ≤ smoothIdf n df := by
  have hpos : (0 : ℝ) < 1 + df := by positivity
  have hle : (1 : ℝ) + df ≤ 1 + n := by
    have : (df : ℝ) ≤ n := Nat.cast_le.mpr h
    linarith
  have h1 : (1 : ℝ) ≤ (1 + n) / (1 + df) := (one_le_div hpos).mpr hle
  have := Real.log_nonneg h1
  rw [smoothIdf]
  linarith

theorem tfidfVec_nonneg (vocab corpus : List String) (text : String) :
    ∀ x ∈ tfidfVec vocab corpus text, 0 ≤ x := by
  intro x hx
  rw [tfidfVec, List.mem_map] at hx
  obtain ⟨t, _, rfl⟩ := hx
  exact mul_nonneg (Nat.cast_nonneg _)
    (smoothIdf_nonneg (List.countP_le_length _))

theorem tfidfVec_length (vocab corpus : List String) (text : String) :
    (tfidfVec vocab corpus text).length = vocab.length := List.length_map _ _

theorem tokenize_empty : tokenize "" = [] := by decide

theorem tfidfVec_empty_text (vocab corpus : List String) :
    ∀ x ∈ tfidfVec vocab corpus "", x = 0 := by
  intro x hx
  rw [tfidfVec, List.mem_map] at hx
  obtain ⟨t, _, rfl⟩ := hx
  rw [tokenize_empty]
  simp

/-- Helper shared by the score claims: every score of the ranking model is
within the unit interval. -/
theorem sectionScore_bounds (secs : List Sec) (query_text : String) (s : Sec) :
    0 ≤ sectionScore secs query_text s ∧ sectionScore secs query_text s ≤ 1 := by
  rw [sectionScore]
  exact cosineSim_bounds (tfidfVec_nonneg _ _ _) (tfidfVec_nonneg _ _ _)
    (by rw [tfidfVec_length, tfidfVec_length])

/-- Helper shared by the score claims: an empty section body yields a zero
vector and hence similarity exactly 0, with no error anywhere. -/
theorem sectionScore_empty (secs : List Sec) (query_text : String) (s : Sec)
    (h : s.full_text_content = "") : sectionScore secs query_text s = 0 := by
  rw [sectionScore, h]
  rw [cosineSim, dotL_zero_right (tfidfVec_empty_text _ _) _]
  simp

/-- The strict before-order the ranked output realises: strictly larger
score first, ties by strictly smaller original position. -/
def rankedBefore (x y : ℕ × Sec × ℝ) : Prop :=
  y.2.2 < x.2.2 ∨ (x.2.2 = y.2.2 ∧ x.1 < y.1)

theorem rankedBefore_asymm {x y : ℕ × Sec × ℝ} (h1 : rankedBefore x y)
    (h2 : rankedBefore y x) : False := by
  rcases h1 with h1 | ⟨he1, hi1⟩ <;> rcases h2 with h2 | ⟨he2, hi2⟩
  · linarith
  · rw [he2] at h1; exact lt_irrefl _ h1
  · rw [he1] at h2; exact lt_irrefl _ h2
  · omega

theorem rankLE_true_iff (x y : ℕ × Sec × ℝ) :
    rankLE x y = true ↔ y.2.2 ≤ x.2.2 := by
  simp [rankLE]

theorem rankLE_false {x y : ℕ × Sec × ℝ} (h : rankLE x y = false) :
    x.2.2 < y.2.2 := by
  have : ¬ (y.2.2 ≤ x.2.2) := by
    rw [← rankLE_true_iff, h]
    simp
  exact lt_of_not_le this

theorem stableInsert_perm {α : Type} (le : α → α → Bool) (a : α) (l : List α) :
    List.Perm (stableInsert le a l) (a :: l) := by
  induction l with
  | nil => exact List.Perm.refl _
  | cons b l ih =>
    simp only [stableInsert]
    by_cases h : le b a = true
    · rw [if_pos h]
      exact (ih.cons b).trans (List.Perm.swap a b l)
    · rw [if_neg h]

theorem stableInsert_mem {α : Type} (le : α → α → Bool) (a : α) (l : List α)
    (x : α) : x ∈ stableInsert le a l ↔ x = a ∨ x ∈ l := by
  rw [(stableInsert_perm le a l).mem_iff]
  simp

theorem pySortedGo_perm {α : Type} (le : α → α → Bool) :
    ∀ (l acc : List α), List.Perm (pySortedGo le acc l) (acc ++ l) := by
  intro l
  induction l with
  | nil => intro acc; simp [pySortedGo]
  | cons a l ih =>
    intro acc
    simp only [pySortedGo]
    exact (ih (stableInsert le a acc)).trans
      (((stableInsert_perm le a acc).append_right l).trans List.perm_middle.symm)

theorem pySorted_perm {α : Type} (le : α → α → Bool) (l : List α) :
    List.Perm (pySorted le l) l := by
  simpa using pySortedGo_perm le l []

theorem stableInsert_rank_pairwise (a : ℕ × Sec × ℝ) :
    ∀ (acc : List (ℕ × Sec × ℝ)), acc.Pairwise rankedBefore →
      (∀ b ∈ acc, b.1 < a.1) →
      (stableInsert rankLE a acc).Pairwise rankedBefore := by
  intro acc
  induction acc with
  | nil =>
    intro _ _
    simp [stableInsert]
  | cons b l ih =>
    intro hp hidx
    rw [List.pairwise_cons] at hp
    obtain ⟨hb, hl⟩ := hp
    simp only [stableInsert]
    by_cases hba : rankLE b a = true
    · rw [if_pos hba]
      rw [List.pairwise_cons]
      constructor
      · intro c hc
        rcases (stableInsert_mem rankLE a l c).mp hc with hca | hcl
        · have hle : a.2.2 ≤ b.2.2 := (rankLE_true_iff b a).mp hba
          rw [hca]
          rcases lt_or_eq_of_le hle with hlt | heq
          · exact Or.inl hlt
          · exact Or.inr ⟨heq.symm, hidx b (List.mem_cons_self b l)⟩
        · exact hb c hcl
      · exact ih hl (fun c hc => hidx c (List.mem_cons_of_mem b hc))
    · rw [if_neg hba]
      have hlt : b.2.2 < a.2.2 := rankLE_false (Bool.eq_false_iff.mpr hba)
      rw [List.pairwise_cons]
      constructor
      · intro c hc
        rcases List.mem_cons.mp hc with rfl | hcl
        · exact Or.inl hlt
        · rcases hb c hcl with h | ⟨he, _⟩
          · exact Or.inl (lt_trans h hlt)
          · exact Or.inl (he ▸ hlt)
      · exact List.pairwise_cons.mpr ⟨hb, hl⟩

theorem pySortedGo_rank_pairwise :
    ∀ (l acc : List (ℕ × Sec × ℝ)), acc.Pairwise rankedBefore →
      (∀ b ∈ acc, ∀ p ∈ l, b.1 < p.1) →
      l.Pairwise (fun p q => p.1 < q.1) →
      (pySortedGo rankLE acc l).Pairwise rankedBefore := by
  intro l
  induction l with
  | nil =>
    intro acc h _ _
    exact h
  | cons a l ih =>
    intro acc hacc hcross hl
    simp only [pySortedGo]
    apply ih
    · exact stableInsert_rank_pairwise a acc hacc
        (fun b hb => hcross b hb a (List.mem_cons_self a l))
    · intro b hb p hp
      rcases (stableInsert_mem rankLE a acc b).mp hb with rfl | hbacc
      · exact (List.pairwise_cons.mp hl).1 p hp
      · exact hcross b hbacc p (List.mem_cons_of_mem a hp)
    · exact (List.pairwise_cons.mp hl).2

theorem rank_sorted_unique :
    ∀ (l₁ l₂ : List (ℕ × Sec × ℝ)), List.Perm l₁ l₂ →
      l₁.Pairwise rankedBefore → l₂.Pairwise rankedBefore → l₁ = l₂ := by
  intro l₁
  induction l₁ with
  | nil =>
    intro l₂ hp _ _
    exact (hp.symm.eq_nil).symm
  | cons a t ih =>
    intro l₂ hp h1 h2
    cases l₂ with
    | nil => exact absurd hp.eq_nil (by simp)
    | cons b t₂ =>
      by_cases hab : a = b
      · subst hab
        rw [ih t₂ hp.cons_inv (List.pairwise_cons.mp h1).2
          (List.pairwise_cons.mp h2).2]
      · have ha2 : a ∈ b :: t₂ := hp.subset (List.mem_cons_self a t)
        have ha2t : a ∈ t₂ := by
          rcases List.mem_cons.mp ha2 with h | h
          · exact absurd h hab
          · exact h
        have hb1 : b ∈ a :: t := hp.symm.subset (List.mem_cons_self b t₂)
        have hb1t : b ∈ t := by
          rcases List.mem_cons.mp hb1 with h | h
          · exact absurd h.symm hab
          · exact h
        have r1 : rankedBefore a b := (List.pairwise_cons.mp h1).1 b hb1t
        have r2 : rankedBefore b a := (List.pairwise_cons.mp h2).1 a ha2t
        exact absurd r1 (fun r1 => rankedBefore_asymm r1 r2)

theorem scanLines_not_found {title : String} {stop : Option String} :
    ∀ (pg : List String),
      (∀ l ∈ pg, strContains (pyStrip l) title = false) →
      scanLines title stop false pg = [] := by
  intro pg
  induction pg with
  | nil => intro _; rfl
  | cons l ls ih =>
    intro h
    simp only [scanLines, if_pos rfl]
    rw [h l (List.mem_cons_self l ls)]
    simp only [Bool.false_eq_true, if_false]
    exact ih (fun x hx => h x (List.mem_cons_of_mem l hx))

theorem getTextGo_not_found (title : String) (nxt : Option (ℕ × String)) :
    ∀ (pages : List (List String)) (idx : ℕ),
      (∀ pg ∈ pages, ∀ l ∈ pg, strContains (pyStrip l) title = false) →
      getTextGo title nxt idx pages = [] := by
  intro pages
  induction pages with
  | nil => intro _ _; rfl
  | cons pg rest ih =>
    intro idx h
    simp only [getTextGo]
    rw [scanLines_not_found pg (h pg (List.mem_cons_self pg rest)),
      ih (idx + 1) (fun p hp => h p (List.mem_cons_of_mem pg hp))]
    split <;> simp

/-- Helper shared by the anchor claims: when no stripped line of the
document contains the section title, the extraction yields the empty
string without any failure. -/
theorem get_text_content_empty (pdf : List (List String)) (page_number : ℕ)
    (section_title : String) (nxt : Option (ℕ × String))
    (h : ∀ pg ∈ pdf, ∀ l ∈ pg, strContains (pyStrip l) section_title = false) :
    get_text_content_for_section pdf page_number section_title nxt = "" := by
  rw [get_text_content_for_section]
  split
  · rfl
  · rw [getTextGo_not_found section_title nxt _ _
      (fun pg hp => h pg (List.drop_subset _ pdf hp))]
    decide

/-- One record of `sub_section_analysis`. -/
structure Refined where
  document : String
  page_number : ℕ
  refined_text : String
deriving DecidableEq

/-- The per-sentence relevance test (lines 188-193 of the source): the
Jaccard similarity of the deduplicated keyword sets must exceed 0.05, and
the union must be nonempty.  The comparison is written with denominators
cleared, which is exact by `jaccard_cleared`. -/
def sentRelevant (query_keywords sent_keywords : List String) : Bool :=
  let qs := firstDedup query_keywords
  let ss := firstDedup sent_keywords
  let inter := (qs.filter (fun t => t ∈ ss)).length
  let uni := (qs ++ ss.filter (fun t => t ∉ qs)).length
  decide (0 < uni) && decide (uni < 20 * inter)

/-- Clearing the denominator of the 0.05 Jaccard threshold is exact over
the rationals. -/
theorem jaccard_cleared (i u : ℕ) (hu : 0 < u) :
    ((1 : ℚ) / 20 < (i : ℚ) / (u : ℚ)) ↔ u < 20 * i := by
  rw [div_lt_div_iff₀ (by norm_num) (by exact_mod_cast hu), one_mul]
  constructor
  · intro h
    have h2 : ((u : ℕ) : ℚ) < ((20 * i : ℕ) : ℚ) := by push_cast; linarith
    exact_mod_cast h2
  · intro h
    have h2 : ((u : ℕ) : ℚ) < ((20 * i : ℕ) : ℚ) := by exact_mod_cast h
    push_cast at h2
    linarith

/-- The sentence loop of the refiner: retain each relevant sentence
(stripped) in order, and stop as soon as the cumulative character length
of the retained sentences exceeds 1000 (checked after every sentence, as
in the source). -/
def refineGo (query_keywords : List String) (lem : String → List String) :
    List String → List String → List String
  | acc, [] => acc
  | acc, sent :: rest =>
    let acc2 :=
      if sentRelevant query_keywords (lem sent) then acc ++ [pyStrip sent]
      else acc
    if 1000 < (acc2.map String.length).sum then acc2
    else refineGo query_keywords lem acc2 rest

/-- The per-section body of the refinement loop (lines 178-206): skip
empty bodies, collect relevant sentences, and emit a record only when at
least one sentence was retained. -/
def refineOne (query_keywords : List String) (lem segment : String → List String)
    (sec : Sec) : Option Refined :=
  if sec.full_text_content = "" then none
  else
    let sents := refineGo query_keywords lem [] (segment sec.full_text_content)
    if sents.isEmpty then none
    else some ⟨sec.document, sec.page_number, String.intercalate " " sents⟩

/-- The top-5 loop of the refinement phase with its early break. -/
def subSectionGo (query_keywords : List String)
    (lem segment : String → List String) : ℕ → List Sec → List Refined
  | _, [] => []
  | i, s :: rest =>
    if 5 ≤ i then []
    else
      match refineOne query_keywords lem segment s with
      | none => subSectionGo query_keywords lem segment (i + 1) rest
      | some r => r :: subSectionGo query_keywords lem segment (i + 1) rest

/-- The `sub_section_analysis` output over the ranked section list. -/
def sub_section_analysis (query_keywords : List String)
    (lem segment : String → List String) (ranked : List Sec) : List Refined :=
  subSectionGo query_keywords lem segment 0 ranked

theorem refineGo_no_pass {query_keywords : List String}
    {lem : String → List String} {sents : List String}
    (h : ∀ sent ∈ sents, sentRelevant query_keywords (lem sent) = false) :
    ∀ acc, refineGo query_keywords lem acc sents = acc := by
  induction sents with
  | nil => intro acc; rfl
  | cons sent rest ih =>
    intro acc
    simp only [refineGo]
    rw [h sent (List.mem_cons_self sent rest)]
    simp only [Bool.false_eq_true, if_false]
    rw [ih (fun x hx => h x (List.mem_cons_of_mem sent hx)) acc]
    split <;> rfl

theorem subSectionGo_eq (query_keywords : List String)
    (lem segment : String → List String) :
    ∀ (l : List Sec) (i : ℕ),
      subSectionGo query_keywords lem segment i l
        = (l.take (5 - i)).filterMap (refineOne query_keywords lem segment) := by
  intro l
  induction l with
  | nil => intro i; simp [subSectionGo]
  | cons s rest ih =>
    intro i
    by_cases h : 5 ≤ i
    · have h0 : 5 - i = 0 := Nat.sub_eq_zero_of_le h
      simp [subSectionGo, if_pos h, h0]
    · have h1 : 5 - i = (5 - (i + 1)) + 1 := by omega
      simp only [subSectionGo, if_neg h, h1, List.take_succ_cons,
        List.filterMap_cons]
      cases hr : refineOne query_keywords lem segment s with
      | none => rw [ih (i + 1)]
      | some r => rw [ih (i + 1)]

end Analyst

theorem dedupGo_pairwise (l : List Entry) :
    ∀ seen : List (String × ℕ),
      (dedupGo seen l).Pairwise (fun a b => entryKey a ≠ entryKey b) ∧
      ∀ e ∈ dedupGo seen l, entryKey e ∉ seen := by
  induction l with
  | nil =>
    intro seen
    exact ⟨List.Pairwise.nil, by simp [dedupGo]⟩
  | cons e es ih =>
    intro seen
    by_cases h : entryKey e ∈ seen
    · simp only [dedupGo, if_pos h]
      exact ih seen
    · simp only [dedupGo, if_neg h]
      obtain ⟨hp, hnotin⟩ := ih (entryKey e :: seen)
      refine ⟨List.pairwise_cons.mpr ⟨?_, hp⟩, ?_⟩
      · intro b hb hkey
        exact hnotin b hb (by rw [← hkey]; exact List.mem_cons_self _ _)
      · intro x hx
        rcases List.mem_cons.mp hx with rfl | hx2
        · exact h
        · exact fun hc => hnotin x hx2 (List.mem_cons_of_mem _ hc)

theorem dedupGo_sublist (l : List Entry) :
    ∀ seen : List (String × ℕ), (dedupGo seen l).Sublist l := by
  induction l with
  | nil => intro _; simp [dedupGo]
  | cons e es ih =>
    intro seen
    by_cases h : entryKey e ∈ seen
    · simp only [dedupGo, if_pos h]
      exact (ih seen).cons e
    · simp only [dedupGo, if_neg h]
      exact (ih (entryKey e :: seen)).cons₂ e

theorem dedupGo_covers (l : List Entry) :
    ∀ (seen : List (String × ℕ)) (e : Entry), e ∈ l → entryKey e ∉ seen →
      ∃ e2 ∈ dedupGo seen l, entryKey e2 = entryKey e := by
  induction l with
  | nil =>
    intro _ e he _
    exact absurd he (by simp)
  | cons x es ih =>
    intro seen e he hnot
    by_cases h : entryKey x ∈ seen
    · simp only [dedupGo, if_pos h]
      rcases List.mem_cons.mp he with rfl | hees
      · exact absurd h hnot
      · exact ih seen e hees hnot
    · simp only [dedupGo, if_neg h]
      by_cases hk : entryKey e = entryKey x
      · exact ⟨x, List.mem_cons_self _ _, hk.symm⟩
      · rcases List.mem_cons.mp he with rfl | hees
        · exact absurd rfl hk
        · obtain ⟨e2, h2, hk2⟩ := ih (entryKey x :: seen) e hees (by
            intro hc
            rcases List.mem_cons.mp hc with h1 | h2
            · exact hk h1
            · exact hnot h2)
          exact ⟨e2, List.mem_cons_of_mem _ h2, hk2⟩

theorem dedupGo_first (l : List Entry) :
    ∀ (seen : List (String × ℕ)) (i : ℕ) (hi : i < l.length),
      (∀ e2 ∈ l.take i, entryKey e2 ≠ entryKey (l.get ⟨i, hi⟩)) →
      entryKey (l.get ⟨i, hi⟩) ∉ seen →
      l.get ⟨i, hi⟩ ∈ dedupGo seen l := by
  induction l with
  | nil =>
    intro _ i hi
    exact absurd hi (by simp)
  | cons e es ih =>
    intro seen i hi hfirst hnot
    cases i with
    | zero =>
      have hget : (e :: es).get ⟨0, hi⟩ = e := rfl
      rw [hget] at hnot ⊢
      simp only [dedupGo, if_neg hnot]
      exact List.mem_cons_self _ _
    | succ j =>
      have hj : j < es.length := by simpa using hi
      have hget : (e :: es).get ⟨j + 1, hi⟩ = es.get ⟨j, hj⟩ := rfl
      rw [hget] at hfirst hnot ⊢
      have hne : entryKey e ≠ entryKey (es.get ⟨j, hj⟩) :=
        hfirst e (by
          rw [List.take_succ_cons]
          exact List.mem_cons_self _ _)
      by_cases h : entryKey e ∈ seen
      · simp only [dedupGo, if_pos h]
        exact ih seen j hj
          (fun e2 he2 => hfirst e2 (by
            rw [List.take_succ_cons]
            exact List.mem_cons_of_mem _ he2)) hnot
      · simp only [dedupGo, if_neg h]
        refine List.mem_cons_of_mem _ (ih (entryKey e :: seen) j hj
          (fun e2 he2 => hfirst e2 (by
            rw [List.take_succ_cons]
            exact List.mem_cons_of_mem _ he2)) ?_)
        intro hc
        rcases List.mem_cons.mp hc with h1 | h2
        · exact hne h1.symm
        · exact hnot h2

/-- A first page whose maximum font size covers four distinct rows, used
to exhibit the three-row truncation of title extraction. -/
def fourRowPage : Ext2.Page :=
  { chars := [⟨"A", 1400, "Helv"⟩, ⟨"b", 1000, "Helv"⟩]
    words := [⟨"Alpha", 1400, 10000⟩, ⟨"Beta", 1400, 11000⟩,
              ⟨"Delta", 1400, 12000⟩, ⟨"Omega", 1400, 13000⟩,
              ⟨"body", 1000, 20000⟩]
    lines := [] }

/-- The concrete section of the score witnesses: an empty body. -/
def secWitness : Analyst.Sec := ⟨"doc1.pdf", 1, "Introduction", ""⟩

/-- C1: for every line that passes all eight rejection rules, the
numbering patterns decide the level before the bold/uppercase font-size
fallback is even consulted; in particular the line "1.2.3 Background" is
classified H3 for every font size and boldness, hence also when the size
is below the H1 threshold and the line is not bold. -/
theorem numbering_precedes_style_fallback :
    (∀ (t : String) (fs : ℤ) (b : Bool) (st : FontStats) (wc : ℕ) (lvl : String),
      is_likely_heading t fs b st wc = true → patternLevel t = some lvl →
      headingLevel t fs b st wc = some lvl)
    ∧ (∀ (fs : ℤ) (b : Bool) (st : FontStats),
      lineLevel "1.2.3 Background" fs b st = some "H3") := by
  constructor
  · intro t fs b st wc lvl h hp
    rw [headingLevel, if_pos h, hp]
  · intro fs b st
    have hct : clean_text "1.2.3 Background" = "1.2.3 Background" := by decide
    have hwc : wordCount "1.2.3 Background" = 2 := by decide
    simp only [lineLevel]
    rw [hct, hwc]
    have hlik : is_likely_heading "1.2.3 Background" fs b st 2 = true := by
      rw [is_likely_heading]
      rw [if_neg (by decide)]
      rw [if_neg (by decide)]
      rw [if_neg (by decide)]
      rw [if_neg (by decide)]
      rw [if_neg (by decide)]
      rw [if_neg (fun hc => absurd hc.1 (by decide))]
      rw [if_neg (by decide)]
      rw [if_neg (fun hc => absurd hc.1 (by decide))]
    rw [headingLevel, if_pos hlik,
      (by decide : patternLevel "1.2.3 Background" = some "H3")]

/-- C2: every score the relevance ranker assigns lies in the closed unit
interval, and a section whose body text is empty (zero vector) scores
exactly 0; nothing in the model can fail. -/
theorem relevance_score_unit_interval (secs : List Analyst.Sec)
    (query_text : String) (s : Analyst.Sec) (_hmem : s ∈ secs) :
    0 ≤ Analyst.sectionScore secs query_text s ∧
    Analyst.sectionScore secs query_text s ≤ 1 ∧
    (s.full_text_content = "" → Analyst.sectionScore secs query_text s = 0) := by
  obtain ⟨h0, h1⟩ := Analyst.sectionScore_bounds secs query_text s
  exact ⟨h0, h1, fun he => Analyst.sectionScore_empty secs query_text s he⟩

/-- Witness for C2 at a concrete one-section collection with empty body. -/
theorem relevance_score_unit_interval_witness :
    0 ≤ Analyst.sectionScore [secWitness] "Persona: PM. Job: budget review" secWitness ∧
    Analyst.sectionScore [secWitness] "Persona: PM. Job: budget review" secWitness ≤ 1 ∧
    (secWitness.full_text_content = "" →
      Analyst.sectionScore [secWitness] "Persona: PM. Job: budget review" secWitness = 0) :=
  relevance_score_unit_interval [secWitness] "Persona: PM. Job: budget review"
    secWitness (by decide)

/-- C3: the failing input of the TOC rejection.  Rule 2 of
`is_likely_heading`, applied to the raw text with its seven-dot leader,
rejects the line; but the pipeline cleans the text first, which collapses
the dot run to a single dot, so the same line, bold and at the largest
font size, is classified as an H1 heading instead of being rejected. -/
theorem toc_dot_leader_code_bug :
    clean_text "Introduction ....... 42" = "Introduction . 42" ∧
    is_likely_heading "Introduction ....... 42" 1400 true
      ⟨1400, 1200, 1000, 800⟩ 3 = false ∧
    lineLevel "Introduction ....... 42" 1400 true
      ⟨1400, 1200, 1000, 800⟩ = some "H1" := by
  decide

/-- C4: when no stripped line of the document contains the section title,
section-text extraction returns the empty body without raising, and every
section carrying that body propagates through ranking with a similarity
score of exactly 0. -/
theorem missing_anchor_degrades (pdf : List (List String)) (page_number : ℕ)
    (section_title : String) (nxt : Option (ℕ × String))
    (h : ∀ pg ∈ pdf, ∀ l ∈ pg, strContains (pyStrip l) section_title = false) :
    Analyst.get_text_content_for_section pdf page_number section_title nxt = "" ∧
    (∀ (secs : List Analyst.Sec) (query_text : String) (s : Analyst.Sec),
      s ∈ secs →
      s.full_text_content
        = Analyst.get_text_content_for_section pdf page_number section_title nxt →
      Analyst.sectionScore secs query_text s = 0) := by
  have h0 := Analyst.get_text_content_empty pdf page_number section_title nxt h
  refine ⟨h0, ?_⟩
  intro secs q s _ hs
  exact Analyst.sectionScore_empty secs q s (by rw [hs, h0])

/-- Witness for C4 at a concrete two-page document that never mentions
the section title. -/
theorem missing_anchor_degrades_witness :
    Analyst.get_text_content_for_section [["alpha beta"], ["gamma delta"]]
      1 "Overview" none = "" ∧
    (∀ (secs : List Analyst.Sec) (query_text : String) (s : Analyst.Sec),
      s ∈ secs →
      s.full_text_content
        = Analyst.get_text_content_for_section [["alpha beta"], ["gamma delta"]]
            1 "Overview" none →
      Analyst.sectionScore secs query_text s = 0) :=
  missing_anchor_degrades [["alpha beta"], ["gamma delta"]] 1 "Overview" none
    (by decide)

/-- C5: the ranked output is a permutation of the scored input sections,
it is ordered by strictly descending score with ties broken by the stable
input position, and it is the unique list with these properties, so
repeated runs on identical inputs yield the identical order. -/
theorem ranking_total_order_stable (secs : List Analyst.Sec)
    (query_text : String) :
    List.Perm (Analyst.ranked_sections secs query_text)
      (secs.enum.map (fun p => (p.1, p.2, Analyst.sectionScore secs query_text p.2)))
    ∧ (Analyst.ranked_sections secs query_text).Pairwise Analyst.rankedBefore
    ∧ (∀ l : List (ℕ × Analyst.Sec × ℝ),
        List.Perm l
          (secs.enum.map (fun p => (p.1, p.2, Analyst.sectionScore secs query_text p.2))) →
        l.Pairwise Analyst.rankedBefore →
        l = Analyst.ranked_sections secs query_text) := by
  have hperm : List.Perm (Analyst.ranked_sections secs query_text)
      (secs.enum.map (fun p => (p.1, p.2, Analyst.sectionScore secs query_text p.2))) := by
    rw [Analyst.ranked_sections]
    exact Analyst.pySorted_perm _ _
  have hidx : (secs.enum.map
      (fun p => (p.1, p.2, Analyst.sectionScore secs query_text p.2))).Pairwise
      (fun p q => p.1 < q.1) := by
    have h1 : (List.range secs.length).Pairwise (· < ·) :=
      List.pairwise_lt_range secs.length
    have h2 : (secs.enum.map Prod.fst).Pairwise (· < ·) := by
      rw [List.enum_map_fst]
      exact h1
    rw [List.pairwise_map] at h2
    rw [List.pairwise_map]
    exact h2
  have hpair : (Analyst.ranked_sections secs query_text).Pairwise
      Analyst.rankedBefore := by
    rw [Analyst.ranked_sections, pySorted]
    exact Analyst.pySortedGo_rank_pairwise _ [] List.Pairwise.nil (by simp) hidx
  refine ⟨hperm, hpair, ?_⟩
  intro l hlp hlpair
  exact Analyst.rank_sorted_unique l (Analyst.ranked_sections secs query_text)
    (hlp.trans hperm.symm) hlpair hpair

/-- C6: in the deduplicated outline no two entries share the
lowercased-text and page key, the output is a subsequence of the input,
every input key is still represented (so the same text on another page is
retained), and the first occurrence of each key is the one kept. -/
theorem outline_dedup_unique (l : List Entry) :
    (dedupOutline l).Pairwise (fun a b => entryKey a ≠ entryKey b) ∧
    (dedupOutline l).Sublist l ∧
    (∀ e ∈ l, ∃ e2 ∈ dedupOutline l, entryKey e2 = entryKey e) ∧
    (∀ (i : ℕ) (hi : i < l.length),
      (∀ e2 ∈ l.take i, entryKey e2 ≠ entryKey (l.get ⟨i, hi⟩)) →
      l.get ⟨i, hi⟩ ∈ dedupOutline l) := by
  refine ⟨(dedupGo_pairwise l []).1, dedupGo_sublist l [], ?_, ?_⟩
  · intro e he
    exact dedupGo_covers l [] e he (by simp)
  · intro i hi hfirst
    exact dedupGo_first l [] i hi hfirst (by simp)

/-- C7 counterexample: on the two-row title page the pipeline returns
"Anual Report 2024" (clean_text collapses the doubled n of "Annual"), not
the claimed "Annual Report 2024". -/
theorem title_three_rows_counterexample :
    (Ext2.extract_outline_with_pdfplumber [annualPage]).1 ≠ "Annual Report 2024" ∧
    (Ext2.extract_outline_with_pdfplumber [annualPage]).1 = "Anual Report 2024" := by
  decide

/-- C7 amended: title extraction keeps at most the first three
maximum-font rows in ascending row order joined with single spaces, and
then applies clean_text, whose repeated-character collapse turns "Annual"
into "Anual"; a fourth maximum-font row is dropped. -/
theorem title_three_rows_amended :
    (Ext2.extract_outline_with_pdfplumber [annualPage]).1 = "Anual Report 2024" ∧
    (Ext2.extract_outline_with_pdfplumber [fourRowPage]).1 = "Alpha Beta Delta" := by
  decide

/-- C8 counterexample: ext3 keeps the nonempty cleaned title "RFP"
although it is shorter than 5 characters, so the claimed universal
fallback does not hold for the program's second extractor. -/
theorem title_fallback_counterexample :
    (Ext3.extract_outline_with_pdfplumber [rfpPage]).1 = "RFP" ∧
    ("RFP").length < 5 ∧
    (Ext3.extract_outline_with_pdfplumber [rfpPage]).1 ≠ "Untitled Document" := by
  decide

/-- C8 amended: ext2's extractor falls back to "Untitled Document"
whenever the cleaned title is empty or shorter than 5 characters and its
title is never the empty string; ext3's extractor falls back exactly when
the cleaned candidate is empty and otherwise returns the candidate
unchanged, even when it is shorter than 5 characters. -/
theorem title_fallback_amended :
    (∀ (words : List Ext2.Word) (m : ℤ),
      (Ext2.titleRaw words m = "" ∨ (Ext2.titleRaw words m).length < 5) →
      Ext2.titleOf words m = "Untitled Document")
    ∧ (∀ (words : List Ext2.Word) (m : ℤ), Ext2.titleOf words m ≠ "")
    ∧ (∀ pdf : List Ext3.Page3, Ext3.ext3TitleRaw pdf ≠ "" →
        Ext3.ext3TitleOf pdf = Ext3.ext3TitleRaw pdf)
    ∧ (∀ pdf : List Ext3.Page3, Ext3.ext3TitleRaw pdf = "" →
        Ext3.ext3TitleOf pdf = "Untitled Document") := by
  refine ⟨?_, ?_, ?_, ?_⟩
  · intro words m h
    simp only [Ext2.titleOf]
    rw [if_pos h]
  · intro words m
    by_cases h : Ext2.titleRaw words m = "" ∨ (Ext2.titleRaw words m).length < 5
    · simp only [Ext2.titleOf]
      rw [if_pos h]
      decide
    · simp only [Ext2.titleOf]
      rw [if_neg h]
      push_neg at h
      exact h.1
  · intro pdf h
    rw [Ext3.ext3TitleOf, if_neg h]
  · intro pdf h
    rw [Ext3.ext3TitleOf, if_pos h]

/-- Witness for C8's amended theorem: with no words at all the ext2 title
is empty, so the fallback fires. -/
theorem title_fallback_amended_witness :
    Ext2.titleOf [] 0 = "Untitled Document" :=
  title_fallback_amended.1 [] 0 (Or.inl (by decide))

/-- C9: a top-5 section none of whose sentences passes the Jaccard
threshold yields no refined record at all, and the refinement output is
exactly the filtered map of the per-section refiner over the first five
ranked sections, so such a section is entirely absent from
`sub_section_analysis`. -/
theorem refiner_omits_irrelevant :
    (∀ (query_keywords : List String) (lem segment : String → List String)
      (sec : Analyst.Sec),
      (∀ sent ∈ segment sec.full_text_content,
        Analyst.sentRelevant query_keywords (lem sent) = false) →
      Analyst.refineOne query_keywords lem segment sec = none)
    ∧ (∀ (query_keywords : List String) (lem segment : String → List String)
      (ranked : List Analyst.Sec),
      Analyst.sub_section_analysis query_keywords lem segment ranked
        = (ranked.take 5).filterMap (Analyst.refineOne query_keywords lem segment)) := by
  constructor
  · intro qk lem segment sec h
    rw [Analyst.refineOne]
    split
    · rfl
    · rw [Analyst.refineGo_no_pass h []]
      rfl
  · intro qk lem segment ranked
    rw [Analyst.sub_section_analysis, Analyst.subSectionGo_eq]

/-- C10: a readable document with zero pages yields the sentinel title
"Empty Document" with an empty outline, in both extractors; this third
sentinel differs from the two titles the spec names. -/
theorem empty_document_sentinel :
    Ext2.extract_outline_with_pdfplumber [] = ("Empty Document", []) ∧
    Ext3.extract_outline_with_pdfplumber [] = ("Empty Document", []) ∧
    "Empty Document" ≠ "Untitled Document" ∧
    "Empty Document" ≠ "Error Processing Document" := by
  constructor
  · decide
  · constructor
    · decide
    · constructor <;> decide

end PipelineModel
